import Mathlib

/-!
# Verification of the Auto-Data-Project dashboard core (`src/app.py`)

This file gives a shallow embedding, in Lean 4, of the two core pieces of
`app.py`:

* the price-history normalizer (`fetch_price_history`, the data-shaping part
  on an already-retrieved table: column renaming, required-column check,
  numeric coercion, volume defaulting), and
* the technical-indicator engine (`add_technical_indicators`: SMA, EMA, RSI,
  MACD with signal and histogram).

A pandas numeric series is modelled as `List (Option ℚ)`: `none` is NaN
(missing), `some q` a finite value.  Real numbers are modelled as rationals,
which is exact for every operation the code performs (pandas uses float64;
nothing here depends on rounding).  Cells of a raw table are modelled by
`Cell`: a numeric value, a NaN, or a non-numeric string (a string cell that
would parse as a number is modelled as `Cell.num`, since `pd.to_numeric`
parses it).

The pandas primitives used by the code — `Series.rolling(w, min_periods=1)
.mean()`, `Series.ewm(span=s, adjust=False).mean()` (with the default
`ignore_na=False`), `Series.diff()`, `clip`, `replace`, elementwise
arithmetic with NaN propagation — are embedded with their documented
semantics, including NaN skipping/carrying for `ewm` and NaN skipping inside
rolling windows.
-/

set_option autoImplicit false

namespace AutoData

/-- One pandas series value: `none` models NaN. -/
abbrev Val := Option ℚ

/-- A raw-table cell: numeric, missing, or a non-numeric string
(`pd.to_numeric(errors="coerce")` turns the latter two into NaN). -/
inductive Cell where
  | num (q : ℚ)
  | na
  | str (s : List Char)
deriving DecidableEq, Repr

/-- `pd.to_numeric(errors="coerce")` on one cell. -/
def Cell.toNum : Cell → Val
  | .num q => some q
  | .na => none
  | .str _ => none

/-- Store a series value back into a table cell (float column: NaN or number). -/
def Val.toCell : Val → Cell
  | some q => .num q
  | none => .na

/-- The smoothing factor `α = 2/(span+1)` used by `ewm(span=s)`. -/
def alpha (span : ℕ) : ℚ := 2 / (span + 1)

/-- `Series.ewm(span, adjust=False).mean()` after the first valid value.
State: `prev` is the current mean, `ow` the accumulated relative weight of
the old mean (pandas `old_wt`; decays by `1-α` every period, NaN or not,
since `ignore_na=False`, and resets to 1 after each valid observation).
A NaN input emits the carried mean. -/
def ewmGo (a : ℚ) : ℚ → ℚ → List Val → List Val
  | _, _, [] => []
  | prev, ow, none :: xs => some prev :: ewmGo a prev (ow * (1 - a)) xs
  | prev, ow, some x :: xs =>
      let own := ow * (1 - a)
      let y := (own * prev + a * x) / (own + a)
      some y :: ewmGo a y 1 xs

/-- `Series.ewm(span, adjust=False).mean()`: leading NaNs give NaN, the first
valid value seeds the mean, then `ewmGo` runs. -/
def ewmOpt (a : ℚ) : List Val → List Val
  | [] => []
  | none :: xs => none :: ewmOpt a xs
  | some x :: xs => some x :: ewmGo a x 1 xs

/-- `Series.rolling(window=w, min_periods=1).mean()`: at index `i` the window
is the last `w` positions ending at `i`; the mean is over the non-NaN values
in the window, NaN if there are none. -/
def rollingMean (w : ℕ) (xs : List Val) : List Val :=
  (List.range xs.length).map fun i =>
    let win := ((xs.take (i + 1)).reverse.take w).reverse
    let vals := win.filterMap id
    if vals.length = 0 then none else some (vals.sum / vals.length)

/-- `Series.diff()`: NaN at index 0, then pairwise difference with NaN
propagation. -/
def diffO (xs : List Val) : List Val :=
  match xs with
  | [] => []
  | _ :: tail =>
      none :: List.zipWith (fun b c => match b, c with
        | some b, some c => some (b - c)
        | _, _ => none) tail xs

/-- Elementwise subtraction of two series with NaN propagation. -/
def subO (x y : Val) : Val :=
  match x, y with
  | some x, some y => some (x - y)
  | _, _ => none

/-- Elementwise division of two series with NaN propagation. -/
def divO (x y : Val) : Val :=
  match x, y with
  | some x, some y => some (x / y)
  | _, _ => none

/-- `Series.replace(0, np.nan)` on one value. -/
def replace0 (x : Val) : Val :=
  if x = some 0 then none else x

/-! ## The indicator engine (`add_technical_indicators`, lines 221-242)

`close` below is the series `pd.to_numeric(d["Close"], errors="coerce")`. -/

/-- `close.rolling(window=w, min_periods=1).mean()` — the SMA columns. -/
def smaCol (w : ℕ) (close : List Val) : List Val := rollingMean w close

/-- `close.ewm(span=s, adjust=False).mean()` — the EMA columns. -/
def emaCol (s : ℕ) (close : List Val) : List Val := ewmOpt (alpha s) close

/-- `up = delta.clip(lower=0)` where `delta = close.diff()`. -/
def upCol (close : List Val) : List Val :=
  (diffO close).map (Option.map fun d => max d 0)

/-- `down = -delta.clip(upper=0)` where `delta = close.diff()`. -/
def downCol (close : List Val) : List Val :=
  (diffO close).map (Option.map fun d => max (-d) 0)

/-- `roll_up = up.ewm(span=14, adjust=False).mean()` — the average gain. -/
def rollUp (close : List Val) : List Val := ewmOpt (alpha 14) (upCol close)

/-- `roll_down = down.ewm(span=14, adjust=False).mean()` — the average loss. -/
def rollDown (close : List Val) : List Val := ewmOpt (alpha 14) (downCol close)

/-- `rs = roll_up / roll_down.replace(0, np.nan)`. -/
def rsCol (close : List Val) : List Val :=
  List.zipWith divO (rollUp close) ((rollDown close).map replace0)

/-- `d["RSI14"] = 100 - (100 / (1 + rs))`. -/
def rsiCol (close : List Val) : List Val :=
  (rsCol close).map (Option.map fun r => 100 - 100 / (1 + r))

/-- `d["MACD"] = ema12 - ema26`. -/
def macdCol (close : List Val) : List Val :=
  List.zipWith subO (emaCol 12 close) (emaCol 26 close)

/-- `d["MACD_signal"] = d["MACD"].ewm(span=9, adjust=False).mean()` (the MACD
column round-trips through the frame exactly, so it is fed back verbatim). -/
def macdSignalCol (close : List Val) : List Val :=
  ewmOpt (alpha 9) (macdCol close)

/-- `d["MACD_hist"] = d["MACD"] - d["MACD_signal"]`. -/
def macdHistCol (close : List Val) : List Val :=
  List.zipWith subO (macdCol close) (macdSignalCol close)

/-! ## The normalizer (`fetch_price_history`, lines 100-144)

The network part of `fetch_price_history` is out of scope; the embedding
starts from the already-retrieved raw table (arbitrary column names, a
timestamp index) and models the shaping steps: column renaming, the
required-column check, `reset_index` (which inserts the index as the first
column, renamed `Date`), numeric coercion of the price columns, and volume
defaulting.  A dataframe is column-oriented: an index of timestamps
(modelled as `ℤ`) plus named columns of cells. -/

/-- `b` starts the list `l` (character-wise). -/
def startsWith : List Char → List Char → Bool
  | [], _ => true
  | _ :: _, [] => false
  | a :: as, b :: bs => a == b && startsWith as bs

/-- Python's substring test `needle in hay` (contiguous occurrence). -/
def containsSub (needle : List Char) : List Char → Bool
  | [] => needle.isEmpty
  | c :: rest => startsWith needle (c :: rest) || containsSub needle rest

/-- Lowercased keywords searched for by the renaming loop. -/
def kwOpen : List Char := "open".data
/-- Keyword "adj". -/
def kwAdj : List Char := "adj".data
/-- Keyword "high". -/
def kwHigh : List Char := "high".data
/-- Keyword "low". -/
def kwLow : List Char := "low".data
/-- Keyword "close". -/
def kwClose : List Char := "close".data
/-- Keyword "volume". -/
def kwVolume : List Char := "volume".data

/-- Canonical column name "Open". -/
def nOpen : List Char := "Open".data
/-- Canonical column name "High". -/
def nHigh : List Char := "High".data
/-- Canonical column name "Low". -/
def nLow : List Char := "Low".data
/-- Canonical column name "Adj Close". -/
def nAdjClose : List Char := "Adj Close".data
/-- Canonical column name "Close". -/
def nClose : List Char := "Close".data
/-- Canonical column name "Volume". -/
def nVolume : List Char := "Volume".data
/-- Column name "Date" produced by `reset_index`. -/
def nDate : List Char := "Date".data

/-- The column-renaming map built at lines 105-121: lowercase the name, then
the first matching substring rule wins (`open` without `adj`, then `high`,
then `low` without `adj`, then `adj`+`close`, then `close`, then `volume`;
otherwise the name is kept). -/
def colMap (c : List Char) : List Char :=
  let cl := c.map Char.toLower
  if containsSub kwOpen cl && !containsSub kwAdj cl then nOpen
  else if containsSub kwHigh cl then nHigh
  else if containsSub kwLow cl && !containsSub kwAdj cl then nLow
  else if containsSub kwAdj cl && containsSub kwClose cl then nAdjClose
  else if containsSub kwClose cl then nClose
  else if containsSub kwVolume cl then nVolume
  else c

/-- A pandas dataframe: a timestamp index plus named columns of cells. -/
structure PandasDF where
  idx : List ℤ
  cols : List (List Char × List Cell)
deriving DecidableEq, Repr

/-- `pd.DataFrame()` — the explicit empty result. -/
def emptyDF : PandasDF := ⟨[], []⟩

/-- `df[name]`: the first column carrying `name`. -/
def getColL (cols : List (List Char × List Cell)) (name : List Char) :
    Option (List Cell) :=
  (cols.find? fun p => p.1 == name).map (·.2)

/-- `df[name]` on a dataframe. -/
def getCol (df : PandasDF) (name : List Char) : Option (List Cell) :=
  getColL df.cols name

/-- The four price columns required at line 125. -/
def priceNames : List (List Char) := [nOpen, nHigh, nLow, nClose]

/-- `df.rename(columns=cols_map)` (line 122). -/
def renameCols (cols : List (List Char × List Cell)) :
    List (List Char × List Cell) :=
  cols.map fun p => (colMap p.1, p.2)

/-- `reqs.issubset(set(df.columns))` (lines 125-126). -/
def hasRequired (cols : List (List Char × List Cell)) : Bool :=
  priceNames.all fun n => cols.any fun p => p.1 == n

/-- Numeric coercion of one column (lines 137-140): price columns get
`pd.to_numeric(errors="coerce")`, a `Volume` column additionally
`.fillna(0)`; other columns are untouched. -/
def coerceCol : List Char × List Cell → List Char × List Cell
  | (n, cs) =>
    if n ∈ priceNames then (n, cs.map fun c => (Cell.toNum c).toCell)
    else if n = nVolume then
      (n, cs.map fun c => Cell.num ((Cell.toNum c).getD 0))
    else (n, cs)

/-- A timestamp stored as a table cell. -/
def intCell (z : ℤ) : Cell := Cell.num (z : ℚ)

/-- The data-shaping part of `fetch_price_history` (lines 100-144): rename
columns, require Open/High/Low/Close (else return the empty frame),
`reset_index` into a leading `Date` column, coerce price columns (keeping
every row), coerce-or-create `Volume`. -/
def normalizeDF (df : PandasDF) : PandasDF :=
  let renamed := renameCols df.cols
  if hasRequired renamed then
    let withDate := (nDate, df.idx.map intCell) :: renamed
    let coerced := withDate.map coerceCol
    if coerced.any fun p => p.1 == nVolume then ⟨df.idx, coerced⟩
    else ⟨df.idx, coerced ++ [(nVolume, df.idx.map fun _ => Cell.num 0)]⟩
  else emptyDF

/-! ## `add_technical_indicators` as a dataframe transformer (lines 215-244) -/

/-- Indicator column name "SMA20". -/
def nSMA20 : List Char := "SMA20".data
/-- Indicator column name "SMA50". -/
def nSMA50 : List Char := "SMA50".data
/-- Indicator column name "SMA200". -/
def nSMA200 : List Char := "SMA200".data
/-- Indicator column name "EMA20". -/
def nEMA20 : List Char := "EMA20".data
/-- Indicator column name "EMA50". -/
def nEMA50 : List Char := "EMA50".data
/-- Indicator column name "RSI14". -/
def nRSI14 : List Char := "RSI14".data
/-- Indicator column name "MACD". -/
def nMACD : List Char := "MACD".data
/-- Indicator column name "MACD_signal". -/
def nMACDSignal : List Char := "MACD_signal".data
/-- Indicator column name "MACD_hist". -/
def nMACDHist : List Char := "MACD_hist".data

/-- Store a series back as a table column. -/
def valsToCells (v : List Val) : List Cell := v.map Val.toCell

/-- `d[name] = v`: replace the column if the name exists, else append it. -/
def setCol (df : PandasDF) (name : List Char) (v : List Cell) : PandasDF :=
  if df.cols.any fun p => p.1 == name then
    ⟨df.idx, df.cols.map fun p => if p.1 = name then (p.1, v) else p⟩
  else ⟨df.idx, df.cols ++ [(name, v)]⟩

/-- `add_technical_indicators`: work on a copy (pure value here), return it
unchanged if there is no `Close` column, else coerce `Close` to numeric and
assign the nine indicator columns in source order. -/
def addTechnicalIndicators (df : PandasDF) : PandasDF :=
  if df.cols.any fun p => p.1 == nClose then
    let close : List Val := ((getCol df nClose).getD []).map Cell.toNum
    let d1 := setCol df nSMA20 (valsToCells (smaCol 20 close))
    let d2 := setCol d1 nSMA50 (valsToCells (smaCol 50 close))
    let d3 := setCol d2 nSMA200 (valsToCells (smaCol 200 close))
    let d4 := setCol d3 nEMA20 (valsToCells (emaCol 20 close))
    let d5 := setCol d4 nEMA50 (valsToCells (emaCol 50 close))
    let d6 := setCol d5 nRSI14 (valsToCells (rsiCol close))
    let d7 := setCol d6 nMACD (valsToCells (macdCol close))
    let d8 := setCol d7 nMACDSignal (valsToCells (macdSignalCol close))
    let d9 := setCol d8 nMACDHist (valsToCells (macdHistCol close))
    d9
  else df

/-! ## Spec-side definitions

`emaSpecGo`/`emaSpecRec` are modelled from the spec's wording of the EMA
("recursive smoothing with smoothing factor α = 2/(s+1), seeded with the
first close value, then `ema[i] = α·close[i] + (1-α)·ema[i-1]`"); they are
the comparison target for the refinement claims about the engine's EMA. -/

/-- Spec-side EMA recursion after the seed: `ema[i] = α·x[i] + (1-α)·ema[i-1]`. -/
def emaSpecGo (a : ℚ) : ℚ → List ℚ → List ℚ
  | _, [] => []
  | prev, x :: xs =>
      let y := a * x + (1 - a) * prev
      y :: emaSpecGo a y xs

/-- Spec-side EMA with smoothing factor `a`, seeded with the first value. -/
def emaSpecRec (a : ℚ) : List ℚ → List ℚ
  | [] => []
  | x :: xs => x :: emaSpecGo a x xs

/-- Spec-side EMA with span `s`: smoothing factor `α = 2/(s+1)`. -/
def emaSpec (s : ℕ) (xs : List ℚ) : List ℚ := emaSpecRec (alpha s) xs

/-! ## Basic lemmas about the embedded primitives -/

theorem ewmGo_length (a prev ow : ℚ) (xs : List Val) :
    (ewmGo a prev ow xs).length = xs.length := by
  induction xs generalizing prev ow with
  | nil => rfl
  | cons x xs ih =>
    cases x with
    | none => simpa [ewmGo] using ih ..
    | some v => simpa [ewmGo] using ih ..

theorem ewmOpt_length (a : ℚ) (xs : List Val) :
    (ewmOpt a xs).length = xs.length := by
  induction xs with
  | nil => rfl
  | cons x xs ih =>
    cases x with
    | none => simpa [ewmOpt] using ih
    | some v => simp [ewmOpt, ewmGo_length]

theorem diffO_length (xs : List Val) : (diffO xs).length = xs.length := by
  cases xs with
  | nil => rfl
  | cons x xs => simp [diffO]

theorem upCol_length (close : List Val) : (upCol close).length = close.length := by
  simp [upCol, diffO_length]

theorem downCol_length (close : List Val) :
    (downCol close).length = close.length := by
  simp [downCol, diffO_length]

theorem rollUp_length (close : List Val) :
    (rollUp close).length = close.length := by
  simp [rollUp, ewmOpt_length, upCol_length]

theorem rollDown_length (close : List Val) :
    (rollDown close).length = close.length := by
  simp [rollDown, ewmOpt_length, downCol_length]

/-- On an all-valid series, the `ewm` loop after the seed is exactly the
spec's recursion: the accumulated old weight stays 1 and
`((1-a)·prev + a·x)/((1-a)+a) = a·x + (1-a)·prev`. -/
theorem ewmGo_one_map_some (a prev : ℚ) (xs : List ℚ) :
    ewmGo a prev 1 (xs.map some) = (emaSpecGo a prev xs).map some := by
  induction xs generalizing prev with
  | nil => rfl
  | cons x xs ih =>
    have hden : (1 * (1 - a) + a) = 1 := by ring
    have hval : (1 * (1 - a) * prev + a * x) / (1 * (1 - a) + a)
        = a * x + (1 - a) * prev := by
      rw [hden, div_one]; ring
    simp only [List.map_cons, ewmGo, emaSpecGo, hval, List.cons.injEq, true_and]
    exact ih _

/-- On an all-valid series the engine's `ewm(span, adjust=False).mean()` is
exactly the spec recursion seeded with the first value. -/
theorem ewmOpt_map_some (a : ℚ) (xs : List ℚ) :
    ewmOpt a (xs.map some) = (emaSpecRec a xs).map some := by
  cases xs with
  | nil => rfl
  | cons x xs =>
    simp only [List.map_cons, ewmOpt, emaSpecRec, List.cons.injEq, true_and]
    exact ewmGo_one_map_some a x xs

theorem emaSpecGo_replicate (a v : ℚ) (n : ℕ) :
    emaSpecGo a v (List.replicate n v) = List.replicate n v := by
  induction n with
  | zero => rfl
  | succ n ih =>
    have hv : a * v + (1 - a) * v = v := by ring
    simp only [List.replicate_succ, emaSpecGo, hv, List.cons.injEq, true_and]
    exact ih

theorem emaSpecRec_replicate (a v : ℚ) (n : ℕ) :
    emaSpecRec a (List.replicate n v) = List.replicate n v := by
  cases n with
  | zero => rfl
  | succ n =>
    simp only [List.replicate_succ, emaSpecRec, List.cons.injEq, true_and]
    exact emaSpecGo_replicate a v n

theorem zipWith_subO_map_some (xs ys : List ℚ) :
    List.zipWith subO (xs.map some) (ys.map some)
      = (List.zipWith (fun x y => x - y) xs ys).map some := by
  rw [List.zipWith_map, List.map_zipWith]
  rfl

/-! ## C3 and C9: the EMA recursion and the MACD family -/

/-- C3: the engine's EMA (for any span `s`, on any Close series) equals the
spec's no-adjustment recursion `ema[0] = close[0]`,
`ema[i] = α·close[i] + (1-α)·ema[i-1]` with `α = 2/(s+1)`; consequently a
constant Close series is a fixed point (`EMA == v` everywhere). -/
theorem C3_ema_recursion (s : ℕ) (close : List ℚ) :
    emaCol s (close.map some) = (emaSpec s close).map some ∧
    ∀ (n : ℕ) (v : ℚ),
      emaCol s ((List.replicate n v).map some)
        = (List.replicate n v).map some := by
  constructor
  · exact ewmOpt_map_some (alpha s) close
  · intro n v
    rw [emaCol, ewmOpt_map_some (alpha s) (List.replicate n v),
      emaSpecRec_replicate]

/-- C9: at every index, `MACD = EMA(close,12) - EMA(close,26)`,
`Signal = EMA(MACD, 9)` applied to the MACD series itself, and
`Histogram = MACD - Signal`, exactly (stated against the spec-side EMA
recursion `emaSpec`). -/
theorem C9_macd_family (close : List ℚ) :
    macdCol (close.map some)
      = (List.zipWith (fun x y => x - y) (emaSpec 12 close)
          (emaSpec 26 close)).map some ∧
    macdSignalCol (close.map some)
      = (emaSpec 9 (List.zipWith (fun x y => x - y) (emaSpec 12 close)
          (emaSpec 26 close))).map some ∧
    macdHistCol (close.map some)
      = (List.zipWith (fun x y => x - y)
          (List.zipWith (fun x y => x - y) (emaSpec 12 close)
            (emaSpec 26 close))
          (emaSpec 9 (List.zipWith (fun x y => x - y) (emaSpec 12 close)
            (emaSpec 26 close)))).map some := by
  have hmacd : macdCol (close.map some)
      = (List.zipWith (fun x y => x - y) (emaSpec 12 close)
          (emaSpec 26 close)).map some := by
    rw [macdCol, emaCol, emaCol, ewmOpt_map_some, ewmOpt_map_some,
      zipWith_subO_map_some]
    rfl
  have hsig : macdSignalCol (close.map some)
      = (emaSpec 9 (List.zipWith (fun x y => x - y) (emaSpec 12 close)
          (emaSpec 26 close))).map some := by
    rw [macdSignalCol, hmacd, ewmOpt_map_some]
    rfl
  refine ⟨hmacd, hsig, ?_⟩
  rw [macdHistCol, hmacd, hsig, zipWith_subO_map_some]

/-! ## C2 and C6: the RSI divide-by-zero policy and short inputs -/

theorem divO_none (x : Val) : divO x none = none := by
  cases x <;> rfl

theorem replace0_some_zero : replace0 (some 0) = none := by
  simp [replace0]

/-- Wherever the average loss is exactly 0, `replace(0, nan)` turns the
denominator into NaN, so RS and hence RSI are NaN there. -/
theorem rsi_none_of_rollDown_zero (cl : List Val) (i : ℕ)
    (h : (rollDown cl)[i]? = some (some 0)) :
    (rsiCol cl)[i]? = some none := by
  have hid : i < (rollDown cl).length := (List.getElem?_eq_some.mp h).1
  have hiu : i < (rollUp cl).length := by
    rw [rollUp_length]
    rw [rollDown_length] at hid
    exact hid
  have hrs : (rsCol cl)[i]? = some none := by
    rw [rsCol, List.getElem?_zipWith, List.getElem?_map, h,
      List.getElem?_eq_getElem hiu]
    simp [replace0_some_zero, divO_none]
  rw [rsiCol, List.getElem?_map, hrs]
  rfl

theorem ewmGo_zero (a : ℚ) : ∀ (k : ℕ) (ow : ℚ),
    ewmGo a 0 ow (List.replicate k (some 0)) = List.replicate k (some 0) := by
  intro k
  induction k with
  | zero => intro ow; rfl
  | succ k ih =>
    intro ow
    simp only [List.replicate_succ, ewmGo, mul_zero, add_zero, zero_add,
      zero_div, List.cons.injEq, true_and]
    exact ih 1

theorem ewmOpt_zero (a : ℚ) (k : ℕ) :
    ewmOpt a (List.replicate k (some 0)) = List.replicate k (some 0) := by
  cases k with
  | zero => rfl
  | succ k =>
    simp only [List.replicate_succ, ewmOpt, List.cons.injEq, true_and]
    exact ewmGo_zero a k 1

/-- For a strictly increasing close series every delta is positive, so the
down-move series is NaN followed by zeros. -/
theorem downCol_chain : ∀ (c : ℚ) (rest : List ℚ),
    List.Chain' (· < ·) (c :: rest) →
    downCol ((c :: rest).map some)
      = none :: List.replicate rest.length (some 0) := by
  have key : ∀ (rest : List ℚ) (c : ℚ), List.Chain' (· < ·) (c :: rest) →
      (List.zipWith
          (fun b cc => match b, cc with
            | some b, some cc => (some (b - cc) : Val)
            | _, _ => none)
          (rest.map some) ((c :: rest).map some)).map
        (Option.map fun d => max (-d) 0)
      = List.replicate rest.length (some 0) := by
    intro rest
    induction rest with
    | nil => intro c _; rfl
    | cons r rs ih =>
      intro c hc
      rw [List.chain'_cons] at hc
      have h0 : max (-(r - c)) 0 = 0 := max_eq_right (by linarith [hc.1])
      have ih' := ih r hc.2
      show (Option.map (fun d => max (-d) 0) (some (r - c)) : Val) ::
          (List.zipWith
              (fun b cc => match b, cc with
                | some b, some cc => (some (b - cc) : Val)
                | _, _ => none)
              (rs.map some) ((r :: rs).map some)).map
            (Option.map fun d => max (-d) 0)
        = some 0 :: List.replicate rs.length (some 0)
      rw [Option.map_some', h0]
      exact congrArg (some 0 :: ·) ih'
  intro c rest h
  show (none : Val) ::
      (List.zipWith
          (fun b cc => match b, cc with
            | some b, some cc => (some (b - cc) : Val)
            | _, _ => none)
          (rest.map some) ((c :: rest).map some)).map
        (Option.map fun d => max (-d) 0)
    = none :: List.replicate rest.length (some 0)
  exact congrArg (none :: ·) (key rest c h)

theorem rollDown_chain (c : ℚ) (rest : List ℚ)
    (h : List.Chain' (· < ·) (c :: rest)) :
    rollDown ((c :: rest).map some)
      = none :: List.replicate rest.length (some 0) := by
  rw [rollDown, downCol_chain c rest h]
  simp only [ewmOpt, List.cons.injEq, true_and]
  exact ewmOpt_zero _ rest.length

theorem zipWith_divO_replicate_none : ∀ (xs : List Val),
    List.zipWith divO xs (List.replicate xs.length none)
      = List.replicate xs.length none := by
  intro xs
  induction xs with
  | nil => rfl
  | cons x xs ih =>
    simp only [List.length_cons, List.replicate_succ, List.zipWith_cons_cons,
      divO_none, List.cons.injEq, true_and]
    exact ih

/-- C2: wherever the span-14 EMA of the down-move series (the average loss)
is exactly 0, the engine's RSI14 is NaN at that index — never clamped to 100
and never infinite; and for a strictly monotonically increasing Close series
RSI14 is NaN at every index. -/
theorem C2_rsi_zero_loss (close : List ℚ) :
    (∀ i : ℕ, (rollDown (close.map some))[i]? = some (some 0) →
      (rsiCol (close.map some))[i]? = some none) ∧
    (close ≠ [] → List.Pairwise (· < ·) close →
      rsiCol (close.map some) = List.replicate close.length none) := by
  constructor
  · intro i h
    exact rsi_none_of_rollDown_zero (close.map some) i h
  · intro hne hpw
    have hch := hpw.chain'
    obtain ⟨c, rest, rfl⟩ : ∃ c rest, close = c :: rest := by
      cases close with
      | nil => exact absurd rfl hne
      | cons c rest => exact ⟨c, rest, rfl⟩
    have hrd := rollDown_chain c rest hch
    have hlen : (rollUp ((c :: rest).map some)).length = rest.length + 1 := by
      rw [rollUp_length]
      simp
    have hmap : (rollDown ((c :: rest).map some)).map replace0
        = List.replicate (rest.length + 1) none := by
      rw [hrd]
      simp only [List.map_cons, List.map_replicate, replace0_some_zero,
        List.replicate_succ]
      rfl
    have hrs : rsCol ((c :: rest).map some)
        = List.replicate (rest.length + 1) none := by
      rw [rsCol, hmap, ← hlen, zipWith_divO_replicate_none, hlen]
    rw [rsiCol, hrs, List.map_replicate]
    simp

/-- C6 (amended): on a Close series with fewer than 2 points the engine's
RSI14 is NaN at every point (same length as the input, no error), but the
MACD family is not fully undefined: on a 1-point series MACD, Signal and
Histogram are all the defined value 0. -/
theorem C6_short_series (close : List ℚ) (h : close.length < 2) :
    rsiCol (close.map some) = List.replicate close.length none ∧
    macdCol (close.map some) = close.map (fun _ => some 0) ∧
    macdSignalCol (close.map some) = close.map (fun _ => some 0) ∧
    macdHistCol (close.map some) = close.map (fun _ => some 0) := by
  match close with
  | [] => exact ⟨rfl, rfl, rfl, rfl⟩
  | [c] =>
    refine ⟨rfl, ?_, ?_, ?_⟩
    · simp [macdCol, emaCol, ewmOpt, ewmGo, subO, sub_self]
    · simp [macdSignalCol, macdCol, emaCol, ewmOpt, ewmGo, subO, sub_self]
    · simp [macdHistCol, macdSignalCol, macdCol, emaCol, ewmOpt, ewmGo, subO,
        sub_self]
  | c₁ :: c₂ :: rest =>
    exfalso
    simp only [List.length_cons] at h
    omega

/-- C6 counterexample: the claim as stated fails on the one-point series
`[5]` — MACD there is the defined value 0, not missing. -/
theorem C6_cex_macd_defined :
    (([5] : List ℚ)).length < 2 ∧
    macdCol (([5] : List ℚ).map some) = [some 0] ∧
    (some (0 : ℚ) : Val) ≠ none := by
  refine ⟨by decide, ?_, by decide⟩
  simp [macdCol, emaCol, ewmOpt, ewmGo, subO]

end AutoData

namespace AutoData

/-! ## C1: the grow-then-slide SMA window -/

theorem rolling_window (w : ℕ) (l : List ℚ) :
    ((l.reverse.take w).reverse : List ℚ) = l.drop (l.length - w) := by
  rw [List.take_reverse, List.reverse_reverse]

theorem filterMap_id_map_some (l : List ℚ) :
    (l.map some).filterMap id = l := by
  rw [List.filterMap_map]
  exact List.filterMap_some l

/-- The rolling window of the engine, at index `i < len`, is exactly the
slice `closes[max(0, i-w+1) .. i]` (with truncated subtraction `i+1-w`
playing the role of `max(0, i-w+1)`). -/
theorem smaCol_window (w : ℕ) (close : List ℚ) (i : ℕ)
    (hi : i < close.length) :
    ((((close.map some).take (i + 1)).reverse.take w).reverse).filterMap id
      = (close.take (i + 1)).drop (i + 1 - w) := by
  rw [← List.map_take, ← List.map_reverse, ← List.map_take,
    ← List.map_reverse, filterMap_id_map_some, rolling_window]
  congr 1
  rw [List.length_take, inf_eq_min, min_eq_left (by omega)]

theorem smaCol_index (w : ℕ) (hw : 1 ≤ w) (close : List ℚ) (i : ℕ)
    (hi : i < close.length) :
    (smaCol w (close.map some))[i]? =
      some (some (((close.take (i + 1)).drop (i + 1 - w)).sum
        / ((close.take (i + 1)).drop (i + 1 - w)).length)) := by
  have hlen : (close.map some).length = close.length := by simp
  rw [smaCol, rollingMean, List.getElem?_map,
    List.getElem?_range (by rw [hlen]; exact hi), Option.map_some']
  congr 1
  have hwin := smaCol_window w close i hi
  simp only [hwin]
  have hpos : ((close.take (i + 1)).drop (i + 1 - w)).length ≠ 0 := by
    rw [List.length_drop, List.length_take, inf_eq_min]
    rw [min_eq_left (by omega)]
    omega
  rw [if_neg hpos]

end AutoData

namespace AutoData

/-- C1 (amended): the engine's SMA at every index `i` is the mean of
`closes[max(0, i-w+1) .. i]` — during the first `w-1` points the mean is over
however many points exist, never missing; on `[1,…,10]` with window 3 the
values at indices 0, 1, 2 are 1, 3/2, 2 as claimed, and at index 9 the value
is 9 (the mean of 8, 9, 10), not the 8.0 stated in the claim. -/
theorem C1_sma_grow_then_slide (w : ℕ) (hw : 1 ≤ w) (close : List ℚ) :
    ((smaCol w (close.map some)).length = close.length ∧
      ∀ i : ℕ, i < close.length →
        (smaCol w (close.map some))[i]? =
          some (some (((close.take (i + 1)).drop (i + 1 - w)).sum
            / ((close.take (i + 1)).drop (i + 1 - w)).length))) ∧
    ((smaCol 3 (([1, 2, 3, 4, 5, 6, 7, 8, 9, 10] : List ℚ).map some))[0]?
        = some (some 1) ∧
      (smaCol 3 (([1, 2, 3, 4, 5, 6, 7, 8, 9, 10] : List ℚ).map some))[1]?
        = some (some (3 / 2)) ∧
      (smaCol 3 (([1, 2, 3, 4, 5, 6, 7, 8, 9, 10] : List ℚ).map some))[2]?
        = some (some 2) ∧
      (smaCol 3 (([1, 2, 3, 4, 5, 6, 7, 8, 9, 10] : List ℚ).map some))[9]?
        = some (some 9)) := by
  refine ⟨⟨by simp [smaCol, rollingMean],
    fun i hi => smaCol_index w hw close i hi⟩, ?_, ?_, ?_, ?_⟩
  · rw [smaCol_index 3 (by norm_num) [1, 2, 3, 4, 5, 6, 7, 8, 9, 10] 0
      (by norm_num),
      show (([1, 2, 3, 4, 5, 6, 7, 8, 9, 10] : List ℚ).take
        (0 + 1)).drop (0 + 1 - 3) = [1] from by decide]
    norm_num
  · rw [smaCol_index 3 (by norm_num) [1, 2, 3, 4, 5, 6, 7, 8, 9, 10] 1
      (by norm_num),
      show (([1, 2, 3, 4, 5, 6, 7, 8, 9, 10] : List ℚ).take
        (1 + 1)).drop (1 + 1 - 3) = [1, 2] from by decide]
    norm_num
  · rw [smaCol_index 3 (by norm_num) [1, 2, 3, 4, 5, 6, 7, 8, 9, 10] 2
      (by norm_num),
      show (([1, 2, 3, 4, 5, 6, 7, 8, 9, 10] : List ℚ).take
        (2 + 1)).drop (2 + 1 - 3) = [1, 2, 3] from by decide]
    norm_num
  · rw [smaCol_index 3 (by norm_num) [1, 2, 3, 4, 5, 6, 7, 8, 9, 10] 9
      (by norm_num),
      show (([1, 2, 3, 4, 5, 6, 7, 8, 9, 10] : List ℚ).take
        (9 + 1)).drop (9 + 1 - 3) = [8, 9, 10] from by decide]
    norm_num

/-- C1 counterexample: the claim's concrete scenario asserts value 8.0 at
index 9 of SMA(3) over `[1,…,10]`, but the mean of the window `[8,9,10]`
(both per the code and per the claim's own formula) is 9, not 8. -/
theorem C1_cex_index9 :
    (smaCol 3 (([1, 2, 3, 4, 5, 6, 7, 8, 9, 10] : List ℚ).map some))[9]?
        = some (some 9) ∧
    (9 : ℚ) ≠ 8 := by
  refine ⟨?_, by norm_num⟩
  rw [smaCol_index 3 (by norm_num) [1, 2, 3, 4, 5, 6, 7, 8, 9, 10] 9
    (by norm_num),
    show (([1, 2, 3, 4, 5, 6, 7, 8, 9, 10] : List ℚ).take
      (9 + 1)).drop (9 + 1 - 3) = [8, 9, 10] from by decide]
  norm_num

/-- Witness for C1: the amended theorem applied at window 3 and the concrete
ten-point series. -/
theorem C1_witness :
    (smaCol 3 (([1, 2, 3, 4, 5, 6, 7, 8, 9, 10] : List ℚ).map some)).length
      = ([1, 2, 3, 4, 5, 6, 7, 8, 9, 10] : List ℚ).length :=
  (C1_sma_grow_then_slide 3 (by norm_num) [1, 2, 3, 4, 5, 6, 7, 8, 9, 10]).1.1

end AutoData

namespace AutoData

/-! ## Structure of the normalizer output -/

theorem coerceCol_fst (p : List Char × List Cell) : (coerceCol p).1 = p.1 := by
  obtain ⟨n, cs⟩ := p
  simp only [coerceCol]
  split_ifs <;> rfl

theorem coerceCol_date (v : List Cell) :
    coerceCol (nDate, v) = (nDate, v) := by
  have h1 : nDate ∉ priceNames := by decide
  have h2 : nDate ≠ nVolume := by decide
  simp only [coerceCol]
  rw [if_neg h1, if_neg h2]

theorem find?_map_coerceCol (cols : List (List Char × List Cell))
    (name : List Char) :
    List.find? (fun p => p.1 == name) (cols.map coerceCol)
      = (List.find? (fun p => p.1 == name) cols).map coerceCol := by
  rw [List.find?_map]
  have heq : ((fun p : List Char × List Cell => p.1 == name) ∘ coerceCol)
      = fun p => p.1 == name := by
    funext p
    simp [Function.comp, coerceCol_fst]
  rw [heq]

/-- When the required columns are present, the normalizer's output is the
`Date` column from the index, followed by the renamed columns coerced in
place, followed possibly by a synthesized `Volume` column — in particular
the input row order and row count are preserved verbatim. -/
theorem normalizeDF_cols (t : PandasDF)
    (h : hasRequired (renameCols t.cols) = true) :
    ∃ tailcols, (normalizeDF t).idx = t.idx ∧
      (normalizeDF t).cols
        = (nDate, t.idx.map intCell)
            :: ((renameCols t.cols).map coerceCol ++ tailcols) := by
  rw [normalizeDF]
  simp only [h, if_true, List.map_cons, coerceCol_date]
  by_cases hv : (((nDate, t.idx.map intCell)
      :: (renameCols t.cols).map coerceCol).any
        fun p => p.1 == nVolume) = true
  · rw [if_pos hv]
    exact ⟨[], rfl, by simp⟩
  · rw [if_neg hv]
    exact ⟨[(nVolume, t.idx.map fun _ => Cell.num 0)], rfl, by simp⟩

end AutoData

namespace AutoData

/-! ## C4, C5, C7: coercion keeps rows, order is passed through, missing
required columns give the empty frame -/

theorem getColL_normalize_price (t : PandasDF) (name : List Char)
    (cs : List Cell) (hreq : hasRequired (renameCols t.cols) = true)
    (hname : name ∈ priceNames)
    (hfound : getColL (renameCols t.cols) name = some cs) :
    getCol (normalizeDF t) name
      = some (cs.map fun c => (Cell.toNum c).toCell) := by
  obtain ⟨tail, _, hcols⟩ := normalizeDF_cols t hreq
  have hdn : ∀ m ∈ priceNames, ¬ (nDate == m) = true := by decide
  have hne : ¬ ((nDate, t.idx.map intCell).1 == name) = true :=
    hdn name hname
  have hstep : List.find? (fun p : List Char × List Cell => p.1 == name)
      ((nDate, t.idx.map intCell)
        :: (List.map coerceCol (renameCols t.cols) ++ tail))
      = List.find? (fun p => p.1 == name)
          (List.map coerceCol (renameCols t.cols) ++ tail) :=
    List.find?_cons_of_neg _ hne
  rw [getCol, hcols, getColL, hstep, List.find?_append, find?_map_coerceCol]
  cases hf : List.find? (fun p => p.1 == name) (renameCols t.cols) with
  | none => rw [getColL, hf] at hfound; simp at hfound
  | some p =>
    obtain ⟨pn, pc⟩ := p
    have hp1 : pn = name := by
      have := List.find?_some hf
      simpa using this
    have hp2 : pc = cs := by
      rw [getColL, hf] at hfound
      simpa using hfound
    subst hp1
    subst hp2
    simp only [Option.map_some', Option.or, coerceCol, if_pos hname]

/-- C4 (amended): a price cell that fails numeric coercion becomes a missing
value, and its row is kept: each output price column is the cellwise
coercion of the reconciled input column, with the same length (the
normalizer drops no rows). -/
theorem C4_unparsable_cell_kept (t : PandasDF) (name : List Char)
    (cs : List Cell) (hreq : hasRequired (renameCols t.cols) = true)
    (hname : name ∈ priceNames)
    (hfound : getColL (renameCols t.cols) name = some cs) :
    getCol (normalizeDF t) name
        = some (cs.map fun c => (Cell.toNum c).toCell) ∧
    (cs.map fun c => (Cell.toNum c).toCell).length = cs.length ∧
    (normalizeDF t).idx = t.idx :=
  ⟨getColL_normalize_price t name cs hreq hname hfound, by simp,
    (normalizeDF_cols t hreq).choose_spec.1⟩

/-- A one-row raw table whose Close cell is the unparsable string "abc". -/
def ex4 : PandasDF :=
  ⟨[0], [(nOpen, [Cell.num 1]), (nHigh, [Cell.num 2]),
         (nLow, [Cell.num 1]), (nClose, [Cell.str "abc".data])]⟩

/-- Witness for C4: the amended theorem applied to the concrete table `ex4`. -/
theorem C4_witness :
    getCol (normalizeDF ex4) nClose
        = some ([Cell.str "abc".data].map fun c => (Cell.toNum c).toCell) ∧
    ([Cell.str "abc".data].map fun c => (Cell.toNum c).toCell).length
        = [Cell.str "abc".data].length ∧
    (normalizeDF ex4).idx = ex4.idx :=
  C4_unparsable_cell_kept ex4 nClose [Cell.str "abc".data]
    (by decide) (by decide) (by decide)

/-- C4 counterexample: on `ex4` the unparsable Close cell is coerced to a
missing value and its row is kept — the output still has one row, so the
claim that the owning row is dropped is false. -/
theorem C4_cex_row_not_dropped :
    getCol (normalizeDF ex4) nClose = some [Cell.na] ∧
    getColL ex4.cols nClose = some [Cell.str "abc".data] ∧
    Cell.toNum (Cell.str "abc".data) = none ∧
    (normalizeDF ex4).idx.length = 1 := by decide

/-- C5 (amended): the normalizer passes the input rows through in their
original order — the output `Date` column is the input index verbatim (no
sorting, no duplicate collapsing). -/
theorem C5_order_passthrough (t : PandasDF)
    (h : hasRequired (renameCols t.cols) = true) :
    getCol (normalizeDF t) nDate = some (t.idx.map intCell) ∧
    (normalizeDF t).idx = t.idx := by
  obtain ⟨tail, hidx, hcols⟩ := normalizeDF_cols t h
  refine ⟨?_, hidx⟩
  rw [getCol, hcols, getColL, List.find?_cons_of_pos _ (by simp)]
  rfl

/-- A two-row raw table whose timestamps arrive in descending order. -/
def ex5a : PandasDF :=
  ⟨[2, 1], [(nOpen, [Cell.num 1, Cell.num 2]),
            (nHigh, [Cell.num 1, Cell.num 2]),
            (nLow, [Cell.num 1, Cell.num 2]),
            (nClose, [Cell.num 1, Cell.num 2])]⟩

/-- A two-row raw table with a duplicated timestamp. -/
def ex5b : PandasDF :=
  ⟨[5, 5], [(nOpen, [Cell.num 1, Cell.num 2]),
            (nHigh, [Cell.num 1, Cell.num 2]),
            (nLow, [Cell.num 1, Cell.num 2]),
            (nClose, [Cell.num 1, Cell.num 2])]⟩

/-- C5 counterexample: the normalizer emits `ex5a`'s descending timestamps
unsorted, and keeps both rows of `ex5b`'s duplicated timestamp — the output
is neither sorted ascending nor duplicate-free. -/
theorem C5_cex_no_sort_no_dedup :
    getCol (normalizeDF ex5a) nDate = some [Cell.num 2, Cell.num 1] ∧
    ¬ List.Pairwise (· < ·) [(2 : ℤ), 1] ∧
    getCol (normalizeDF ex5b) nDate = some [Cell.num 5, Cell.num 5] ∧
    (normalizeDF ex5b).idx.length = 2 := by decide

/-- Witness for C5: the amended theorem applied to the concrete table
`ex5a`. -/
theorem C5_witness :
    getCol (normalizeDF ex5a) nDate = some (ex5a.idx.map intCell) ∧
    (normalizeDF ex5a).idx = ex5a.idx :=
  C5_order_passthrough ex5a (by decide)

/-- C7: if after reconciliation any of Open, High, Low, Close is missing the
normalizer returns the explicit empty frame (and raises no error — it is a
total function). -/
theorem C7_missing_required_empty (t : PandasDF)
    (h : ∃ n ∈ priceNames, n ∉ (renameCols t.cols).map Prod.fst) :
    normalizeDF t = emptyDF := by
  have hb : ¬ hasRequired (renameCols t.cols) = true := by
    intro hall
    obtain ⟨n, hn, hnot⟩ := h
    rw [hasRequired, List.all_eq_true] at hall
    have hx := hall n hn
    rw [List.any_eq_true] at hx
    obtain ⟨p, hp, hbeq⟩ := hx
    exact hnot (List.mem_map.mpr ⟨p, hp, by simpa using hbeq⟩)
  simp only [normalizeDF]
  rw [if_neg hb]

/-- A raw table with no Low column at all. -/
def exNoLow : PandasDF :=
  ⟨[0], [(nOpen, [Cell.num 1]), (nHigh, [Cell.num 2]),
         (nClose, [Cell.num 1])]⟩

/-- Witness for C7: a table missing the Low column normalizes to the empty
frame. -/
theorem C7_witness : normalizeDF exNoLow = emptyDF :=
  C7_missing_required_empty exNoLow ⟨nLow, by decide, by decide⟩

end AutoData

namespace AutoData

/-- Witness for C2: the theorem applied to the strictly increasing series
`[1, 2, 3]`, whose RSI14 is missing at every index. -/
theorem C2_witness :
    rsiCol (([1, 2, 3] : List ℚ).map some)
      = List.replicate ([1, 2, 3] : List ℚ).length none :=
  (C2_rsi_zero_loss [1, 2, 3]).2 (by decide) (by decide)

/-- Witness for C6: the amended theorem applied to the one-point series
`[5]`. -/
theorem C6_witness :
    rsiCol (([5] : List ℚ).map some)
        = List.replicate ([5] : List ℚ).length none ∧
    macdCol (([5] : List ℚ).map some) = ([5] : List ℚ).map (fun _ => some 0) ∧
    macdSignalCol (([5] : List ℚ).map some)
        = ([5] : List ℚ).map (fun _ => some 0) ∧
    macdHistCol (([5] : List ℚ).map some)
        = ([5] : List ℚ).map (fun _ => some 0) :=
  C6_short_series [5] (by decide)

end AutoData

namespace AutoData

/-! ## C8: column reconciliation rules -/

/-- The claim's concrete scenario: a raw table carrying both "Adj Close" and
"Close" (with distinguishable values), plus the other canonical columns. -/
def ex8 : PandasDF :=
  ⟨[0], [(nAdjClose, [Cell.num 11]), (nClose, [Cell.num 22]),
         (nOpen, [Cell.num 33]), (nHigh, [Cell.num 44]),
         (nLow, [Cell.num 55]), (nVolume, [Cell.num 66])]⟩

/-- C8 (amended): reconciliation is case-insensitive substring matching, but
in the code's priority order — `open` (without `adj`) first, then `high`,
then `low` (without `adj`), then `adj`+`close`, then `close`, then `volume`,
else the name is kept; in the concrete scenario the plain "Close" column
(not "Adj Close") becomes the canonical Close used downstream. -/
theorem C8_reconciliation_rules (c : List Char) :
    ((containsSub kwOpen (c.map Char.toLower)
        && !containsSub kwAdj (c.map Char.toLower)) = true →
      colMap c = nOpen) ∧
    ((containsSub kwOpen (c.map Char.toLower)
        && !containsSub kwAdj (c.map Char.toLower)) = false →
      containsSub kwHigh (c.map Char.toLower) = true →
      colMap c = nHigh) ∧
    ((containsSub kwOpen (c.map Char.toLower)
        && !containsSub kwAdj (c.map Char.toLower)) = false →
      containsSub kwHigh (c.map Char.toLower) = false →
      (containsSub kwLow (c.map Char.toLower)
        && !containsSub kwAdj (c.map Char.toLower)) = true →
      colMap c = nLow) ∧
    ((containsSub kwOpen (c.map Char.toLower)
        && !containsSub kwAdj (c.map Char.toLower)) = false →
      containsSub kwHigh (c.map Char.toLower) = false →
      (containsSub kwLow (c.map Char.toLower)
        && !containsSub kwAdj (c.map Char.toLower)) = false →
      (containsSub kwAdj (c.map Char.toLower)
        && containsSub kwClose (c.map Char.toLower)) = true →
      colMap c = nAdjClose) ∧
    ((containsSub kwOpen (c.map Char.toLower)
        && !containsSub kwAdj (c.map Char.toLower)) = false →
      containsSub kwHigh (c.map Char.toLower) = false →
      (containsSub kwLow (c.map Char.toLower)
        && !containsSub kwAdj (c.map Char.toLower)) = false →
      (containsSub kwAdj (c.map Char.toLower)
        && containsSub kwClose (c.map Char.toLower)) = false →
      containsSub kwClose (c.map Char.toLower) = true →
      colMap c = nClose) ∧
    ((containsSub kwOpen (c.map Char.toLower)
        && !containsSub kwAdj (c.map Char.toLower)) = false →
      containsSub kwHigh (c.map Char.toLower) = false →
      (containsSub kwLow (c.map Char.toLower)
        && !containsSub kwAdj (c.map Char.toLower)) = false →
      (containsSub kwAdj (c.map Char.toLower)
        && containsSub kwClose (c.map Char.toLower)) = false →
      containsSub kwClose (c.map Char.toLower) = false →
      containsSub kwVolume (c.map Char.toLower) = true →
      colMap c = nVolume) ∧
    ([nAdjClose, nClose, nOpen, nHigh, nLow, nVolume].map colMap
        = [nAdjClose, nClose, nOpen, nHigh, nLow, nVolume] ∧
      getCol (normalizeDF ex8) nClose = some [Cell.num 22] ∧
      getCol (normalizeDF ex8) nAdjClose = some [Cell.num 11]) := by
  refine ⟨?_, ?_, ?_, ?_, ?_, ?_, by decide, by decide, by decide⟩
  · intro h1
    simp only [colMap]
    rw [if_pos h1]
  · intro h1 h2
    simp only [colMap]
    rw [if_neg (by simp [h1]), if_pos h2]
  · intro h1 h2 h3
    simp only [colMap]
    rw [if_neg (by simp [h1]), if_neg (by simp [h2]), if_pos h3]
  · intro h1 h2 h3 h4
    simp only [colMap]
    rw [if_neg (by simp [h1]), if_neg (by simp [h2]), if_neg (by simp [h3]),
      if_pos h4]
  · intro h1 h2 h3 h4 h5
    simp only [colMap]
    rw [if_neg (by simp [h1]), if_neg (by simp [h2]), if_neg (by simp [h3]),
      if_neg (by simp [h4]), if_pos h5]
  · intro h1 h2 h3 h4 h5 h6
    simp only [colMap]
    rw [if_neg (by simp [h1]), if_neg (by simp [h2]), if_neg (by simp [h3]),
      if_neg (by simp [h4]), if_neg (by simp [h5]), if_pos h6]

/-- C8 counterexample: the column name "Open Close" contains "close" and not
"adj", yet the code maps it to Open (the `open` rule fires first), refuting
the claim's rule that such a column maps to canonical Close. -/
theorem C8_cex_close_rule :
    containsSub kwClose ("Open Close".data.map Char.toLower) = true ∧
    containsSub kwAdj ("Open Close".data.map Char.toLower) = false ∧
    colMap "Open Close".data = nOpen ∧
    nOpen ≠ nClose := by decide

/-- Witness for C8: the first priority rule applied to the concrete column
name "Open". -/
theorem C8_witness : colMap nOpen = nOpen :=
  (C8_reconciliation_rules nOpen).1 (by decide)

end AutoData

namespace AutoData

/-! ## C10: frame behavior of the indicator engine -/

theorem getCol_setCol_ne (df : PandasDF) (name : List Char) (v : List Cell)
    (other : List Char) (h : other ≠ name) :
    getCol (setCol df name v) other = getCol df other := by
  rw [setCol]
  by_cases hc : (df.cols.any fun p => p.1 == name) = true
  · rw [if_pos hc, getCol, getCol, getColL, getColL]
    rw [List.find?_map]
    have heq : ((fun p : List Char × List Cell => p.1 == other)
          ∘ fun p => if p.1 = name then (p.1, v) else p)
        = fun p => p.1 == other := by
      funext p
      by_cases hp : p.1 = name <;> simp [Function.comp, hp]
    rw [heq]
    cases hf : List.find? (fun p => p.1 == other) df.cols with
    | none => rfl
    | some p =>
      have hp1 : p.1 = other := by
        have := List.find?_some hf
        simpa using this
      simp only [Option.map_some']
      have hid : (if p.1 = name then (p.1, v) else p) = p := by
        rw [if_neg]
        rw [hp1]
        exact h
      rw [hid]
  · rw [if_neg hc, getCol, getCol, getColL, getColL, List.find?_append]
    have hone : List.find? (fun p : List Char × List Cell => p.1 == other)
        [(name, v)] = none := by
      rw [List.find?_cons_of_neg _ ?_, List.find?_nil]
      simp only [beq_iff_eq]
      intro hh
      exact h hh.symm
    rw [hone, Option.or_none]

/-- C10: when the table has no Close column, `add_technical_indicators`
returns it unchanged (no columns added, no error); and for every input the
columns outside the nine indicator names are left untouched in the output
(Python-level aliasing is outside the embedding: `d = df.copy()` makes the
function a pure value transformer, which is how it is modelled here). -/
theorem C10_frame (df : PandasDF) :
    ((∀ p ∈ df.cols, p.1 ≠ nClose) → addTechnicalIndicators df = df) ∧
    (∀ name, name ∉ [nSMA20, nSMA50, nSMA200, nEMA20, nEMA50, nRSI14,
        nMACD, nMACDSignal, nMACDHist] →
      getCol (addTechnicalIndicators df) name = getCol df name) := by
  constructor
  · intro h
    have hfalse : ¬ (df.cols.any fun p => p.1 == nClose) = true := by
      rw [List.any_eq_true]
      rintro ⟨p, hp, hbeq⟩
      exact h p hp (by simpa using hbeq)
    rw [addTechnicalIndicators, if_neg hfalse]
  · intro name hname
    have hn : name ≠ nSMA20 ∧ name ≠ nSMA50 ∧ name ≠ nSMA200 ∧
        name ≠ nEMA20 ∧ name ≠ nEMA50 ∧ name ≠ nRSI14 ∧ name ≠ nMACD ∧
        name ≠ nMACDSignal ∧ name ≠ nMACDHist := by
      simp only [List.mem_cons, List.not_mem_nil, or_false] at hname
      push_neg at hname
      exact hname
    obtain ⟨h1, h2, h3, h4, h5, h6, h7, h8, h9⟩ := hn
    by_cases hc : (df.cols.any fun p => p.1 == nClose) = true
    · simp only [addTechnicalIndicators]
      rw [if_pos hc]
      rw [getCol_setCol_ne _ _ _ _ h9, getCol_setCol_ne _ _ _ _ h8,
        getCol_setCol_ne _ _ _ _ h7, getCol_setCol_ne _ _ _ _ h6,
        getCol_setCol_ne _ _ _ _ h5, getCol_setCol_ne _ _ _ _ h4,
        getCol_setCol_ne _ _ _ _ h3, getCol_setCol_ne _ _ _ _ h2,
        getCol_setCol_ne _ _ _ _ h1]
    · rw [addTechnicalIndicators, if_neg hc]

/-- A table with no Close column. -/
def exNoClose : PandasDF := ⟨[0], [(nDate, [Cell.num 7])]⟩

/-- Witness for C10: the theorem applied to the concrete Close-less table
`exNoClose`. -/
theorem C10_witness : addTechnicalIndicators exNoClose = exNoClose :=
  (C10_frame exNoClose).1 (by decide)

end AutoData
